import Mathlib

/-!
Verification development for the core consensus/data-integrity subsystem of a
blockchain node framework: a Merkle accumulator (merkle_tree.ts), the BFT
parameter store and vote ledger (framework modules/bft/api.ts), and the commit
pool with its certificate utilities.  Byte buffers are modelled as lists of
naturals below 256; the external cryptographic collaborators (hash, codec,
weighted aggregate signatures) are modelled from the specification since they
are not part of the sources.
-/

set_option maxRecDepth 100000

deriving instance DecidableEq for Except

/-- Bytes are modelled as lists of naturals below 256 (Node.js Buffer). -/
abbrev Bytes := List Nat

/-- Modelled from the spec: the collision-resistant hash collaborator (§6,
lisk-cryptography `hash`), producing 32-byte digests. The digest determines the
low 31 bytes of an injective accumulation of the input, so distinct inputs give
distinct digests except for astronomically unlikely collisions; the leading
digest byte is kept different from the leaf domain tag `0`, as a generic
digest's first byte differs from a fixed tag with overwhelming probability. -/
def mhash (v : Bytes) : Bytes :=
  let s := v.foldl (fun a b => a * 256 + b % 256 + 1) (v.length + 1)
  (s % 255 + 1) :: (List.range 31).map (fun i => s / 256 ^ i % 256)

/-- Modelled from the spec: the leaf domain-separation tag (`constants.ts` of
lisk-tree is not among the sources; the tags are fixed distinct one-byte
constants, §6). -/
def LEAF_TAG : Bytes := [0]

/-- Modelled from the spec: the branch domain-separation tag. -/
def BRANCH_TAG : Bytes := [1]

/-- Reserved root of the empty tree (`EMPTY_HASH`, digest of the empty buffer). -/
def EMPTY_HASH : Bytes := mhash []

/-- Buffer.compare: lexicographic byte comparison, a strict prefix sorts first. -/
def bufCompare : Bytes → Bytes → Ordering
  | [], [] => .eq
  | [], _ :: _ => .lt
  | _ :: _, [] => .gt
  | a :: as, b :: bs => if a < b then .lt else if b < a then .gt else bufCompare as bs

/-- Boolean ordering used by the sort comparators: `a.compare(b) <= 0`. -/
def bufLeB (a b : Bytes) : Bool := bufCompare a b != .gt

/-- Buffer.slice with negative indices `slice(-a, -b)` (offsets from the end,
clamped at the start of the buffer). `slice(-a)` is `sliceFromEnd v a 0`. -/
def sliceFromEnd (v : Bytes) (a b : Nat) : Bytes :=
  (v.take (v.length - b)).drop (v.length - a)

/-- Buffer.readInt8: one signed byte. -/
def readInt8 (v : Bytes) (off : Nat) : Int :=
  let b := v.getD off 0
  if b < 128 then (b : Int) else (b : Int) - 256

/-- Buffer.readBigInt64BE: eight bytes, big-endian, two's complement. -/
def readBigInt64BE (v : Bytes) (off : Nat) : Int :=
  let n := (List.range 8).foldl (fun a i => a * 256 + v.getD (off + i) 0) 0
  if n < 2 ^ 63 then (n : Int) else (n : Int) - 2 ^ 64

/-- Big-endian fixed-width two's-complement byte encoding (writeInt8 /
writeBigInt64BE; the written values stay inside the representable range at
every reachable call site). -/
def intToBytesBE (n : Int) (width : Nat) : Bytes :=
  (List.range width).map
    (fun i => ((n.emod (2 ^ (8 * width))).toNat / 256 ^ (width - 1 - i)) % 256)

/-- Ceiling of the base-two logarithm (`Math.ceil(Math.log2 n)` for `n ≥ 1`):
the least `k` with `n ≤ 2 ^ k`. -/
def ceilLog2 (n : Nat) : Nat :=
  (((List.range (n + 1)).filter (fun k => n ≤ 2 ^ k)).headD 0)

/-- MerkleTree state (merkle_tree.ts): root digest, leaf-count field `_width`,
and the content-addressed arena `_hashToBuffer` mapping digests to stored node
values (later writes shadow earlier ones; lookups see the most recent). -/
structure MTree where
  root : Bytes
  width : Nat
  arena : List (Bytes × Bytes)

deriving Repr, DecidableEq, Inhabited

/-- Arena lookup (`this._hashToBuffer[hash]`). -/
def arenaGet (arena : List (Bytes × Bytes)) (key : Bytes) : Option Bytes :=
  (arena.find? (fun p => p.1 == key)).map (fun p => p.2)

/-- Arena store (`this._hashToBuffer[hash] = value`): the new binding shadows
any previous one. -/
def arenaSet (arena : List (Bytes × Bytes)) (key value : Bytes) : List (Bytes × Bytes) :=
  (key, value) :: arena

/-- Node classification used by getNode. -/
inductive NodeType
  | root
  | branch
  | leaf

deriving Repr, DecidableEq, Inhabited

/-- NodeInfo returned by getNode. -/
structure NodeInfo where
  type : NodeType
  hash : Bytes
  value : Bytes
  leftHash : Bytes
  rightHash : Bytes
  layerIndex : Int
  nodeIndex : Int

deriving Repr, DecidableEq, Inhabited

/-- NodeData returned by the generator helpers. -/
structure NodeData where
  value : Bytes
  hash : Bytes

deriving Repr, DecidableEq, Inhabited

/-- merkle_tree.ts isLeaf: the value begins with the leaf tag and is not the
empty buffer. -/
def isLeaf (value : Bytes) : Bool :=
  value.take 1 == LEAF_TAG && value != []

/-- merkle_tree.ts isAppendPath: tests bit `layer - 1` of the data length with
JS bitwise semantics; a zero layer yields `false` (the fractional multiplier
converts to integer zero). -/
def isAppendPath (dataLength : Nat) (layer : Nat) : Bool :=
  match layer with
  | 0 => false
  | l + 1 =>
    let multiplier := 2 ^ l
    ((dataLength ||| (multiplier - 1)) &&& multiplier) != 0

/-- merkle_tree.ts getNode: fails when the digest is unknown to the arena;
classifies root / leaf / branch, reads the bookkeeping fields from the stored
value (the layer index is read at offset 0, the node index at offset 1), and
slices the child digests from its tail. -/
def getNode (t : MTree) (h : Bytes) : Except String NodeInfo :=
  match arenaGet t.arena h with
  | none => .error "Hash does not exist in merkle tree."
  | some value =>
    let type : NodeType :=
      if t.root == h then .root else if isLeaf value then .leaf else .branch
    let layerIndex : Int := if type == .branch then readInt8 value 0 else 0
    let nodeIndex : Int := if type == .branch then readBigInt64BE value 1 else 0
    let rightHash : Bytes := if type != .leaf then sliceFromEnd value 32 0 else []
    let leftHash : Bytes := if type != .leaf then sliceFromEnd value 64 32 else []
    .ok { type := type, hash := h, value := value, leftHash := leftHash,
          rightHash := rightHash, layerIndex := layerIndex, nodeIndex := nodeIndex }

/-- merkle_tree.ts _generateLeaf: stores the tagged leaf value under its digest
and increments `_width` by one. -/
def generateLeaf (t : MTree) (value : Bytes) : MTree × NodeData :=
  let leafValue := LEAF_TAG ++ value
  let leafHash := mhash leafValue
  ({ t with arena := arenaSet t.arena leafHash leafValue, width := t.width + 1 },
   { value := leafValue, hash := leafHash })

/-- merkle_tree.ts _generateNode: stores the branch value (tag, one layer byte,
eight node-index bytes, then the child digests); the digest covers only the tag
and the child digests. -/
def generateNode (t : MTree) (leftHash rightHash : Bytes) (layerIndex nodeIndex : Int) :
    MTree × NodeData :=
  let layerIndexBytes := intToBytesBE layerIndex 1
  let nodeIndexBytes := intToBytesBE nodeIndex 8
  let branchValue := BRANCH_TAG ++ layerIndexBytes ++ nodeIndexBytes ++ leftHash ++ rightHash
  let branchHash := mhash (BRANCH_TAG ++ leftHash ++ rightHash)
  ({ t with arena := arenaSet t.arena branchHash branchValue },
   { value := branchValue, hash := branchHash })

/-- merkle_tree.ts _build leaf phase: generate every leaf (each call increments
`_width`), record its digest, and store the value a second time. -/
def buildLeaves (t : MTree) : List Bytes → MTree × List Bytes
  | [] => (t, [])
  | v :: vs =>
    let p := generateLeaf t v
    let t2 := { p.1 with arena := arenaSet p.1.arena p.2.hash p.2.value }
    let q := buildLeaves t2 vs
    (q.1, p.2.hash :: q.2)

/-- Pair loop of _build: consecutive disjoint pairs, a trailing odd node is
left out. -/
def buildPairs : List Bytes → List (Bytes × Bytes)
  | a :: b :: rest => (a, b) :: buildPairs rest
  | _ => []

/-- Parent generation of _build: one branch per pair at the current layer with
consecutive node indices, each stored twice like the source does. -/
def generateParents (t : MTree) (layer : Nat) : List (Bytes × Bytes) → Nat → MTree × List Bytes
  | [], _ => (t, [])
  | (l, r) :: ps, i =>
    let p := generateNode t l r (layer : Int) (i : Int)
    let t2 := { p.1 with arena := arenaSet p.1.arena p.2.hash p.2.value }
    let q := generateParents t2 layer ps (i + 1)
    (q.1, p.2.hash :: q.2)

/-- Layer loop of _build (while more than one node remains or an orphan is
pending): an odd layer either parks its last node as the orphan or pairs the
last node with the pending orphan. The JS loop terminates on every reachable
input; the fuel passed below strictly dominates its iteration count, so the
exhaustion branch is never taken. -/
def buildLayers (t : MTree) : Nat → List Bytes → Option Bytes → Nat → MTree × List Bytes
  | 0, nodes, _, _ => (t, nodes)
  | fuel + 1, nodes, orphan, layer =>
    if nodes.length > 1 ∨ orphan.isSome then
      let pairs := buildPairs nodes
      let po :=
        if nodes.length % 2 == 1 then
          match orphan with
          | none => (pairs, some (nodes.getLastD []))
          | some o => (pairs ++ [(nodes.getLastD [], o)], none)
        else (pairs, orphan)
      let q := generateParents t layer po.1 0
      buildLayers q.1 fuel q.2 po.2 (layer + 1)
    else (t, nodes)

/-- merkle_tree.ts _build: leaves, then the layer loop; the root is the head of
the final layer. -/
def buildTree (t : MTree) (initValues : List Bytes) : MTree × Bytes :=
  let p := buildLeaves t initValues
  let q := buildLayers p.1 (2 * initValues.length + 4) p.2 none 0
  (q.1, q.2.headD [])

/-- MerkleTree constructor: `_width` is set to the number of initial values; an
empty input keeps the reserved empty root, otherwise _build runs (and its leaf
phase increments `_width` once more per leaf). -/
def merkleNew (initValues : List Bytes) : MTree :=
  let t0 : MTree := { root := [], width := initValues.length, arena := [] }
  if initValues.length == 0 then { t0 with root := EMPTY_HASH }
  else
    let p := buildTree t0 initValues
    { p.1 with root := p.2 }

/-- Every Buffer object is truthy in JS, even when empty; the source tests
`if (currentNode.rightHash)` on such a Buffer. -/
def jsTruthyBuffer (_ : Bytes) : Bool := true

/-- merkle_tree.ts append descent loop; `remaining` counts down from the tree
height (the source index `i` equals height minus `remaining`). Each iteration
possibly records the current node, stops at a value passing the leaf-tag test,
possibly records the left child, and then hits the unconditional truthy-Buffer
break or descends right. -/
def appendLoop (t : MTree) (width : Nat) :
    Nat → NodeInfo → List NodeInfo → Except String (List NodeInfo)
  | 0, _, path => .ok path
  | remaining + 1, currentNode, path => do
    let path := if isAppendPath (width - 1) (remaining + 1) then path ++ [currentNode] else path
    if isLeaf currentNode.hash then .ok path
    else do
      let path ←
        if isAppendPath (width - 1) remaining then do
          let ln ← getNode t currentNode.leftHash
          pure (path ++ [ln])
        else pure path
      if jsTruthyBuffer currentNode.rightHash then .ok path
      else if isLeaf currentNode.rightHash || currentNode.rightHash == [] then .ok path
      else do
        let nx ← getNode t currentNode.rightHash
        appendLoop t width remaining nx path

/-- merkle_tree.ts append re-pairing loop: pops the two last path entries,
generates their parent (left layer index plus one, left node index plus one),
stores it again, and pushes the freshly read node. The fuel dominates the path
length, which shrinks at every step. -/
def appendPairLoop (t : MTree) : Nat → List NodeInfo → Except String (MTree × List NodeInfo)
  | 0, path => .ok (t, path)
  | fuel + 1, path =>
    if path.length > 1 then do
      let rightNodeInfo := path.getLastD default
      let path1 := path.dropLast
      let leftNodeInfo := path1.getLastD default
      let path2 := path1.dropLast
      let p := generateNode t leftNodeInfo.hash rightNodeInfo.hash
        (leftNodeInfo.layerIndex + 1) (leftNodeInfo.nodeIndex + 1)
      let t2 := { p.1 with arena := arenaSet p.1.arena p.2.hash p.2.value }
      let nn ← getNode t2 p.2.hash
      appendPairLoop t2 fuel (path2 ++ [nn])
    else .ok (t, path)

/-- merkle_tree.ts append: generate the new leaf (incrementing `_width`), read
it and the root back, walk the descent loop over the tree height, push the new
leaf, re-pair, and take the head of the remaining path as the new root. -/
def merkleAppend (t : MTree) (value : Bytes) : Except String (MTree × Bytes) := do
  let g := generateLeaf t value
  let t1 := g.1
  let appendData := g.2
  let appendNode ← getNode t1 appendData.hash
  let currentNode ← getNode t1 t1.root
  let treeHeight := ceilLog2 t1.width + 1
  let path ← appendLoop t1 t1.width treeHeight currentNode []
  let an ← getNode t1 appendNode.hash
  let path1 := path ++ [an]
  let r ← appendPairLoop t1 (path1.length + 1) path1
  let newRoot := (r.2.headD default).hash
  .ok ({ r.1 with root := newRoot }, newRoot)

/-- Block header fields consumed by the BFT module and the certificate
utilities (the block-header collaborator of §6). -/
structure BlockHeader where
  id : Bytes
  height : Int
  generatorAddress : Bytes
  timestamp : Int
  stateRoot : Option Bytes
  validatorsHash : Option Bytes
  maxHeightGenerated : Int
  maxHeightPrevoted : Int
  previousBlockID : Bytes

deriving Repr, DecidableEq, Inhabited

/-- Modelled from the spec: `areDistinctHeadersContradicting` (bft/utils.ts is
not among the sources). Per §4.2, two distinct headers of the same generator
contradict iff they declare the same height (double forge), or one of the two
could not have honestly followed the other: its previously-forged height
reaches the height of the other while its own height also reaches the other
header's max height previously prevoted. The relation is over the unordered
pair (cf. the contradiction-symmetry property of §8), so both orientations are
tested. -/
def areDistinctHeadersContradicting (h1 h2 : BlockHeader) : Bool :=
  h1.generatorAddress == h2.generatorAddress &&
    (h1.height == h2.height ||
      (decide (h1.maxHeightGenerated ≥ h2.height) && decide (h1.height ≥ h2.maxHeightPrevoted)) ||
      (decide (h2.maxHeightGenerated ≥ h1.height) && decide (h2.height ≥ h1.maxHeightPrevoted)))

/-- BFTAPI.areHeadersContradicting (bft/api.ts): headers with identical block
ids never contradict; otherwise delegate to the distinct-header predicate. -/
def areHeadersContradicting (h1 h2 : BlockHeader) : Bool :=
  if h1.id == h2.id then false else areDistinctHeadersContradicting h1 h2

/-- Concrete headers sharing a block id, used to instantiate C4. -/
def hdrW1 : BlockHeader :=
  { id := [1, 2], height := 5, generatorAddress := [9], timestamp := 0,
    stateRoot := none, validatorsHash := none, maxHeightGenerated := 4,
    maxHeightPrevoted := 3, previousBlockID := [0] }

/-- Second concrete header with the same id as `hdrW1`. -/
def hdrW2 : BlockHeader :=
  { id := [1, 2], height := 6, generatorAddress := [9], timestamp := 1,
    stateRoot := none, validatorsHash := none, maxHeightGenerated := 5,
    maxHeightPrevoted := 3, previousBlockID := [0] }

/-- Stable insertion step: the new element is placed before the first entry it
compares less-or-equal to, so earlier input entries stay in front of ties. -/
def insertSorted {α : Type} (le : α → α → Bool) (x : α) : List α → List α
  | [] => [x]
  | y :: ys => if le x y then x :: y :: ys else y :: insertSorted le x ys

/-- Stable sort under a boolean comparator. JS `Array.prototype.sort` is a
stable comparator sort, and every stable sort under the same total comparator
produces the same output, so this structural insertion sort models it. -/
def insertionSortB {α : Type} (le : α → α → Bool) : List α → List α
  | [] => []
  | x :: xs => insertSorted le x (insertionSortB le xs)

/-- Validator entry passed to setBFTParameters (address and BFT weight). -/
structure Validator where
  address : Bytes
  bftWeight : Int

deriving Repr, DecidableEq, Inhabited

/-- Entry of the validators-hash input (BLS key and BFT weight). -/
structure ValidatorsHashInfo where
  blsKey : Bytes
  bftWeight : Int

deriving Repr, DecidableEq, Inhabited

/-- Stored BFT parameter record (bft schemas). -/
structure BFTParameters where
  prevoteThreshold : Int
  precommitThreshold : Int
  certificateThreshold : Int
  validators : List Validator
  validatorsHash : Bytes

deriving Repr, DecidableEq, Inhabited

/-- Per-height block info of the BFT vote ledger. -/
structure BlockBFTInfo where
  generatorAddress : Bytes
  height : Int
  maxHeightGenerated : Int
  maxHeightPrevoted : Int

deriving Repr, DecidableEq, Inhabited

/-- Per-validator vote bookkeeping of the BFT vote ledger. -/
structure ActiveValidatorVoteInfo where
  address : Bytes
  minActiveHeight : Int
  largestHeightPrecommit : Int

deriving Repr, DecidableEq, Inhabited

/-- BFTVotes record (most recent block info first). -/
structure BFTVotes where
  maxHeightPrevoted : Int
  maxHeightPrecommitted : Int
  maxHeightCertified : Int
  blockBFTInfos : List BlockBFTInfo
  activeValidatorsVoteInfo : List ActiveValidatorVoteInfo

deriving Repr, DecidableEq, Inhabited

/-- Persistent state touched by setBFTParameters: the votes record under the
votes prefix and the height-keyed parameters store. -/
structure BFTState where
  votes : BFTVotes
  paramsStore : List (Int × BFTParameters)

deriving Repr, DecidableEq, Inhabited

/-- Parameters-store write (`setWithSchema` under a 4-byte big-endian height
key): the new binding shadows any previous entry for the same height. -/
def storeSet (s : List (Int × BFTParameters)) (k : Int) (v : BFTParameters) :
    List (Int × BFTParameters) :=
  (k, v) :: s.filter (fun p => p.1 != k)

/-- Parameters-store read for an exact height key. -/
def storeGet (s : List (Int × BFTParameters)) (k : Int) : Option BFTParameters :=
  (s.find? (fun p => p.1 == k)).map (fun p => p.2)

/-- Modelled from the spec: `sortValidatorsByAddress` (bft/utils.ts is not
among the sources): stable sort of validators ascending by address bytes. -/
def sortValidatorsByAddress (l : List Validator) : List Validator :=
  insertionSortB (fun a b => bufLeB a.address b.address) l

/-- Modelled from the spec: the same address ordering applied to the
active-validator vote records. -/
def sortActiveValidatorsByAddress (l : List ActiveValidatorVoteInfo) :
    List ActiveValidatorVoteInfo :=
  insertionSortB (fun a b => bufLeB a.address b.address) l

/-- Modelled from the spec: `sortValidatorsByBLSKey` (bft/utils.ts is not
among the sources): stable sort ascending by BLS key bytes. -/
def sortValidatorsByBLSKey (l : List ValidatorsHashInfo) : List ValidatorsHashInfo :=
  insertionSortB (fun a b => bufLeB a.blsKey b.blsKey) l

/-- Little-endian base-256 digits; the fuel dominates the digit count. -/
def natDigitsAux : Nat → Nat → Bytes
  | 0, _ => []
  | fuel + 1, m => if m == 0 then [] else m % 256 :: natDigitsAux fuel (m / 256)

/-- Base-256 digits of a natural number. -/
def natDigits (n : Nat) : Bytes := natDigitsAux n n

/-- Length-prefixed byte encoding of a natural number. -/
def encodeNat (n : Nat) : Bytes := (natDigits n).length :: natDigits n

/-- Zig-zag style byte encoding of an integer. -/
def encodeInt (i : Int) : Bytes :=
  encodeNat (2 * i.natAbs + if i < 0 then 1 else 0)

/-- Length-prefixed byte string. -/
def encodeBytes (b : Bytes) : Bytes := encodeNat b.length ++ b

/-- Modelled from the spec: the canonical deterministic codec encoding (§6) of
the validators-hash input schema (the sorted active validators with their BLS
keys and weights, then the certificate threshold). -/
def encodeValidatorsHashInput (l : List ValidatorsHashInfo) (certificateThreshold : Int) :
    Bytes :=
  (l.foldr (fun e acc => encodeBytes e.blsKey ++ encodeInt e.bftWeight ++ acc) []) ++
    encodeInt certificateThreshold

/-- BFTAPI._computeValidatorsHash (bft/api.ts): resolve each validator's BLS
key through the validator-account collaborator, sort by BLS key, and hash the
canonical encoding together with the certificate threshold. -/
def computeValidatorsHash (accounts : Bytes → Bytes) (validators : List Validator)
    (certificateThreshold : Int) : Bytes :=
  let activeValidators := validators.map
    (fun v => ({ blsKey := accounts v.address, bftWeight := v.bftWeight } : ValidatorsHashInfo))
  let sorted := sortValidatorsByBLSKey activeValidators
  mhash (encodeValidatorsHashInput sorted certificateThreshold)

/-- Validation errors thrown by setBFTParameters. -/
inductive SetBFTError
  | invalidValidatorsSize
  | invalidBFTWeight
  | invalidPrecommitThreshold
  | invalidCertificateThreshold

deriving Repr, DecidableEq, Inhabited

/-- Outcome of setBFTParameters: a thrown error carries the store state at the
moment of the throw, so partial writes would be visible here. -/
inductive SetBFTResult
  | thrown (e : SetBFTError) (st : BFTState)
  | ok (st : BFTState)

deriving Repr, DecidableEq, Inhabited

/-- Weight-validation loop of setBFTParameters: the first non-positive weight
throws, otherwise the aggregate BFT weight is accumulated. -/
def aggregateWeight : List Validator → Except SetBFTError Int
  | [] => .ok 0
  | v :: vs =>
    if v.bftWeight ≤ 0 then .error .invalidBFTWeight
    else (aggregateWeight vs).map (fun w => v.bftWeight + w)

/-- BFTAPI.setBFTParameters (bft/api.ts): batch-size check, weight validation,
then both threshold windows (`⌊W/3⌋ + 1 ≤ t ≤ W`, computed with BigInt
truncated division, which is the floor for the non-negative aggregate weight);
only after all validation does it compute the validators hash, sort the
validators in place by address, store the parameter entry at the next height
(latest recorded block height plus one, falling back to `maxHeightPrevoted`),
and rebuild and re-sort the active-validator vote info. -/
def setBFTParameters (batchSize : Nat) (accounts : Bytes → Bytes) (st : BFTState)
    (precommitThreshold certificateThreshold : Int) (validators : List Validator) :
    SetBFTResult :=
  if validators.length > batchSize then .thrown .invalidValidatorsSize st
  else
    match aggregateWeight validators with
    | .error e => .thrown e st
    | .ok aggregateBFTWeight =>
      if Int.tdiv aggregateBFTWeight 3 + 1 > precommitThreshold ∨
          precommitThreshold > aggregateBFTWeight then
        .thrown .invalidPrecommitThreshold st
      else if Int.tdiv aggregateBFTWeight 3 + 1 > certificateThreshold ∨
          certificateThreshold > aggregateBFTWeight then
        .thrown .invalidCertificateThreshold st
      else
        let validatorsHash := computeValidatorsHash accounts validators certificateThreshold
        let sortedValidators := sortValidatorsByAddress validators
        let bftParams : BFTParameters :=
          { prevoteThreshold := Int.tdiv (2 * aggregateBFTWeight) 3 + 1
            precommitThreshold := precommitThreshold
            certificateThreshold := certificateThreshold
            validators := sortedValidators
            validatorsHash := validatorsHash }
        let bftVotes := st.votes
        let nextHeight :=
          match bftVotes.blockBFTInfos with
          | b :: _ => b.height + 1
          | [] => bftVotes.maxHeightPrevoted
        let paramsStore1 := storeSet st.paramsStore nextHeight bftParams
        let nextActiveValidators := sortedValidators.map (fun validator =>
          match bftVotes.activeValidatorsVoteInfo.find?
              (fun v => v.address == validator.address) with
          | some existing => existing
          | none =>
            { address := validator.address, minActiveHeight := nextHeight,
              largestHeightPrecommit := nextHeight - 1 })
        let nextActiveSorted := sortActiveValidatorsByAddress nextActiveValidators
        .ok { votes := { bftVotes with activeValidatorsVoteInfo := nextActiveSorted },
              paramsStore := paramsStore1 }

/-- Validators hash recorded by a setBFTParameters call at a stored height key
(none when the call threw or nothing is stored there). -/
def storedValidatorsHash (r : SetBFTResult) (h : Int) : Option Bytes :=
  match r with
  | .thrown _ _ => none
  | .ok st => (storeGet st.paramsStore h).map (fun p => p.validatorsHash)

/-- Concrete validator-account collaborator giving every address a distinct
BLS key. -/
def accW : Bytes → Bytes := fun a => 7 :: a

/-- Concrete empty BFT state. -/
def stW : BFTState :=
  { votes := { maxHeightPrevoted := 0, maxHeightPrecommitted := 0,
               maxHeightCertified := 0, blockBFTInfos := [],
               activeValidatorsVoteInfo := [] },
    paramsStore := [] }

/-- Concrete three-validator list of unit weights (aggregate weight three). -/
def validatorsW3 : List Validator :=
  [{ address := [1], bftWeight := 1 }, { address := [2], bftWeight := 1 },
   { address := [3], bftWeight := 1 }]

/-- Concrete account collaborator resolving two distinct addresses to the same
BLS key. -/
def accC : Bytes → Bytes :=
  fun a => if a == [10] then [7] else if a == [11] then [7] else [9]

/-- Concrete account collaborator resolving the two addresses to distinct BLS
keys. -/
def accD : Bytes → Bytes :=
  fun a => if a == [10] then [7] else if a == [11] then [8] else [9]

/-- Certificate record (commit_pool types): projection of a block header plus
optional aggregation bits and signature. -/
structure Certificate where
  blockID : Bytes
  height : Int
  timestamp : Int
  stateRoot : Bytes
  validatorsHash : Bytes
  aggregationBits : Option Bytes
  signature : Option Bytes

deriving Repr, DecidableEq, Inhabited

/-- AggregateCommit record (commit_pool types). -/
structure AggregateCommit where
  height : Int
  aggregationBits : Bytes
  certificateSignature : Bytes

deriving Repr, DecidableEq, Inhabited

/-- commit_pool utils computeCertificateFromBlockHeader: fails when stateRoot
or validatorsHash is missing; otherwise a pure structural projection with bits
and signature unset. -/
def computeCertificateFromBlockHeader (h : BlockHeader) : Except String Certificate :=
  match h.stateRoot with
  | none => .error "stateRoot is not defined."
  | some sr =>
    match h.validatorsHash with
    | none => .error "validatorsHash is not defined."
    | some vh =>
      .ok { blockID := h.id, height := h.height, timestamp := h.timestamp,
            stateRoot := sr, validatorsHash := vh, aggregationBits := none,
            signature := none }

/-- Modelled from the spec: the fixed certificate message domain-separation
tag (`MESSAGE_TAG_CERTIFICATE`, a constant distinct from the tree tags). -/
def MESSAGE_TAG_CERTIFICATE : Bytes := [76, 83, 75, 95, 67, 69]

/-- Modelled from the spec: canonical codec encoding of the certificate
message (blockID, height, timestamp, stateRoot, validatorsHash; the bits and
signature are excluded). -/
def encodeCertificateMessage (c : Certificate) : Bytes :=
  encodeBytes c.blockID ++ encodeInt c.height ++ encodeInt c.timestamp ++
    encodeBytes c.stateRoot ++ encodeBytes c.validatorsHash

/-- Signature shape of the external weighted-aggregate-signature primitive
(keys, aggregation bits, signature, message tag, network identifier, message,
weights, threshold). -/
abbrev WeightedAggSigVerifier :=
  List Bytes → Bytes → Bytes → Bytes → Bytes → Bytes → List Int → Int → Bool

/-- Entry of the key/weight list handed to the sorter ({weight, blsKey}). -/
structure KeyWeightEntry where
  weight : Int
  blsKey : Bytes

deriving Repr, DecidableEq, Inhabited

/-- commit_pool utils getSortedWeightsAndValidatorKeys: copies the caller's
entries, sorts the copy ascending by BLS key (the in-place sort targets the
copy), and projects the weights and keys. The first component is the caller's
array after the call, which the copy leaves untouched. -/
def getSortedWeightsAndValidatorKeys (param : List KeyWeightEntry) :
    List KeyWeightEntry × List Int × List Bytes :=
  let validatorKeysWithWeights :=
    param.map (fun o => ({ weight := o.weight, blsKey := o.blsKey } : KeyWeightEntry))
  let sorted := insertionSortB (fun a b => bufLeB a.blsKey b.blsKey) validatorKeysWithWeights
  (param, sorted.map (fun e => e.weight), sorted.map (fun e => e.blsKey))

/-- commit_pool utils verifyAggregateCertificateSignature: false without bits
or signature; otherwise verifies the weighted aggregate signature over the
canonical certificate message with the fixed tag and network identifier. -/
def verifyAggregateCertificateSignature (verify : WeightedAggSigVerifier)
    (keysList : List Bytes) (weights : List Int) (threshold : Int)
    (networkIdentifier : Bytes) (certificate : Certificate) : Bool :=
  match certificate.aggregationBits, certificate.signature with
  | some aggregationBits, some signature =>
    verify keysList aggregationBits signature MESSAGE_TAG_CERTIFICATE
      networkIdentifier (encodeCertificateMessage certificate) weights threshold
  | _, _ => false

/-- Errors of the BFT parameter store lookups: the dedicated not-found error
and any other store failure. -/
inductive BFTStoreError
  | bftParameterNotFound
  | storeFailure (msg : String)

deriving Repr, DecidableEq, Inhabited

/-- Collaborator snapshot seen by CommitPool.verifyAggregateCommit: the BFT
heights, the result of the next-height parameter lookup at
`maxHeightCertified + 1`, the chain block headers, the parameters effective at
a height, the validator accounts, the network identifier, and the external
aggregate-signature verifier. -/
structure CommitPoolCtx where
  maxHeightCertified : Int
  maxHeightPrecommitted : Int
  nextHeightBFTParameters : Except BFTStoreError Int
  getBlockHeaderByHeight : Int → BlockHeader
  getBFTParameters : Int → BFTParameters
  getValidatorAccount : Bytes → Bytes
  networkIdentifier : Bytes
  verifyWeightedAggSig : WeightedAggSigVerifier

/-- CommitPool.verifyAggregateCommit certificate phase (source lines after the
gates): recompute the certificate for the height, attach the aggregate's bits
and signature, fetch threshold and validators effective at the height, resolve
each BLS key, sort, and delegate to the aggregate-signature verifier. -/
def certificateVerificationPhase (ctx : CommitPoolCtx) (ac : AggregateCommit) :
    Except String Bool := do
  let blockHeader := ctx.getBlockHeaderByHeight ac.height
  let baseCert ← computeCertificateFromBlockHeader blockHeader
  let certificate : Certificate :=
    { baseCert with
        aggregationBits := some ac.aggregationBits
        signature := some ac.certificateSignature }
  let bftParams := ctx.getBFTParameters ac.height
  let threshold := bftParams.certificateThreshold
  let validatorKeysWithWeights := bftParams.validators.map
    (fun v => ({ weight := v.bftWeight, blsKey := ctx.getValidatorAccount v.address } :
      KeyWeightEntry))
  let r := getSortedWeightsAndValidatorKeys validatorKeysWithWeights
  .ok (verifyAggregateCertificateSignature ctx.verifyWeightedAggSig r.2.2 r.2.1
    threshold ctx.networkIdentifier certificate)

/-- CommitPool.verifyAggregateCommit (src/unnamed/part_002): the gates in
source order (empty-empty special case at the certified height, emptiness
rejection, already-certified rejection, not-yet-precommitted rejection, then
the parameter-expiry gate whose lookup failure is swallowed by the catch-all),
followed by the certificate phase. -/
def verifyAggregateCommit (ctx : CommitPoolCtx) (ac : AggregateCommit) :
    Except String Bool :=
  if ac.aggregationBits = [] ∧ ac.certificateSignature = [] ∧
      ac.height = ctx.maxHeightCertified then .ok true
  else if ac.aggregationBits = [] ∨ ac.certificateSignature = [] then .ok false
  else if ac.height ≤ ctx.maxHeightCertified then .ok false
  else if ac.height > ctx.maxHeightPrecommitted then .ok false
  else
    match ctx.nextHeightBFTParameters with
    | .ok heightNextBFTParameters =>
      if ac.height > heightNextBFTParameters - 1 then .ok false
      else certificateVerificationPhase ctx ac
    | .error _ => certificateVerificationPhase ctx ac

/-- Reference behaviour for the swallowed-error claim, following the spec's
words: verifyAggregateCommit as if no expiry constraint existed (step 5
absent). -/
def verifyAggregateCommitNoExpiry (ctx : CommitPoolCtx) (ac : AggregateCommit) :
    Except String Bool :=
  if ac.aggregationBits = [] ∧ ac.certificateSignature = [] ∧
      ac.height = ctx.maxHeightCertified then .ok true
  else if ac.aggregationBits = [] ∨ ac.certificateSignature = [] then .ok false
  else if ac.height ≤ ctx.maxHeightCertified then .ok false
  else if ac.height > ctx.maxHeightPrecommitted then .ok false
  else certificateVerificationPhase ctx ac

/-- Concrete commit pool context at certified height ten and precommitted
height twenty (the spec's short-circuit example). -/
def ctxC2 : CommitPoolCtx :=
  { maxHeightCertified := 10, maxHeightPrecommitted := 20,
    nextHeightBFTParameters := .ok 100,
    getBlockHeaderByHeight := fun _ => default,
    getBFTParameters := fun _ => default,
    getValidatorAccount := fun _ => [1],
    networkIdentifier := [9],
    verifyWeightedAggSig := fun _ _ _ _ _ _ _ _ => true }

/-- Concrete context whose next-height lookup fails with a non-not-found
store error. -/
def ctxC8 : CommitPoolCtx :=
  { ctxC2 with nextHeightBFTParameters := .error (.storeFailure "disk") }

/-- Safe variant of the JS array indexing `l[i]` for a signed index: `none`
models the undefined access (negative or out of range). -/
def listGetInt {α : Type} (l : List α) (i : Int) : Option α :=
  if h : 0 ≤ i ∧ i.toNat < l.length then some (l.get ⟨i.toNat, h.2⟩) else none

/-- BFTAPI.impliesMaximalPrevotes (bft/api.ts): destructures the most recent
stored block info without an emptiness guard (an empty ledger fails with a
TypeError), requires the header to sit directly on top of it, rejects a
forward or self back-reference, accepts when the back-reference is out of the
recorded window, and otherwise compares the generator at the referenced
offset; the offset indexing is embedded with an explicit error branch. -/
def impliesMaximalPrevotes (votes : BFTVotes) (header : BlockHeader) :
    Except String Bool :=
  match votes.blockBFTInfos with
  | [] => .error "TypeError: cannot read properties of undefined"
  | lastHeader :: _ =>
    if header.height ≠ lastHeader.height + 1 then .ok false
    else if header.maxHeightGenerated ≥ header.height then .ok false
    else
      let offset := lastHeader.height - header.maxHeightGenerated
      if offset ≥ (votes.blockBFTInfos.length : Int) then .ok true
      else
        match listGetInt votes.blockBFTInfos offset with
        | none => .error "TypeError: cannot read properties of undefined"
        | some info => .ok (info.generatorAddress == header.generatorAddress)

/-- Concrete one-entry vote ledger. -/
def votesC9 : BFTVotes :=
  { maxHeightPrevoted := 3, maxHeightPrecommitted := 2, maxHeightCertified := 1,
    blockBFTInfos := [{ generatorAddress := [4], height := 3,
                        maxHeightGenerated := 2, maxHeightPrevoted := 3 }],
    activeValidatorsVoteInfo := [] }

/-- Concrete header sitting directly on top of `votesC9`. -/
def headerC9 : BlockHeader :=
  { id := [1], height := 4, generatorAddress := [4], timestamp := 0,
    stateRoot := none, validatorsHash := none, maxHeightGenerated := 3,
    maxHeightPrevoted := 3, previousBlockID := [0] }

lemma buildLeaves_width (l : List Bytes) : ∀ t : MTree, (buildLeaves t l).1.width = t.width + l.length := by
  induction l with
  | nil => intro t; simp [buildLeaves]
  | cons v vs ih =>
    intro t
    simp only [buildLeaves, generateLeaf]
    rw [ih]
    simp +arith

lemma generateParents_width (ps : List (Bytes × Bytes)) :
    ∀ (t : MTree) (layer i : Nat), (generateParents t layer ps i).1.width = t.width := by
  induction ps with
  | nil => intro t layer i; simp [generateParents]
  | cons p ps ih =>
    intro t layer i
    obtain ⟨l, r⟩ := p
    simp only [generateParents, generateNode]
    rw [ih]

lemma buildLayers_width (fuel : Nat) :
    ∀ (t : MTree) (nodes : List Bytes) (orphan : Option Bytes) (layer : Nat),
      (buildLayers t fuel nodes orphan layer).1.width = t.width := by
  induction fuel with
  | zero => intro t nodes orphan layer; simp [buildLayers]
  | succ fuel ih =>
    intro t nodes orphan layer
    simp only [buildLayers]
    split
    · rw [ih, generateParents_width]
    · rfl

lemma merkleNew_width (initValues : List Bytes) :
    (merkleNew initValues).width = 2 * initValues.length := by
  simp only [merkleNew, buildTree]
  split
  · next h =>
    simp only [beq_iff_eq, List.length_eq_zero] at h
    simp [h]
  · next h =>
    simp only
    rw [buildLayers_width, buildLeaves_width]
    simp +arith [two_mul]

/-- C5: the tree width does not equal the number of leaves committed: the
constructor sets `_width` to the leaf count, but the build phase increments it
once more per leaf, so `new(L)` reports width `2·|L|`; at the failing input
`L = [b"a"]` the width is `2`, not `1`. The empty tree does keep width `0` and
the reserved empty root. -/
theorem c5_width_is_double_leaf_count :
    (∀ initValues : List Bytes, (merkleNew initValues).width = 2 * initValues.length) ∧
      (merkleNew [[97]]).width = 2 ∧
      (merkleNew []).width = 0 ∧ (merkleNew []).root = EMPTY_HASH :=
  ⟨merkleNew_width, by decide, by decide, by decide⟩

/-- C1: evaluating the code at the failing input `L = [b"a", b"b", b"c"]`,
`x = b"d"` (the example of §8): appending `x` to the tree built over `L`
returns a root different from the root of the batch build over `L ++ [x]`, so
the batch build does not equal sequential append. -/
theorem c1_append_root_differs_from_batch_build :
    (merkleAppend (merkleNew [[97], [98], [99]]) [100]).map (fun r => r.2) ≠
      .ok (merkleNew [[97], [98], [99], [100]]).root := by decide

lemma areDistinctHeadersContradicting_comm (A B : BlockHeader) :
    areDistinctHeadersContradicting A B = areDistinctHeadersContradicting B A := by
  rw [Bool.eq_iff_iff]
  simp only [areDistinctHeadersContradicting, Bool.and_eq_true,
    Bool.or_eq_true, beq_iff_eq, decide_eq_true_eq]
  constructor
  · rintro ⟨hg, (hd | hd) | hd⟩
    · exact ⟨hg.symm, Or.inl (Or.inl hd.symm)⟩
    · exact ⟨hg.symm, Or.inr hd⟩
    · exact ⟨hg.symm, Or.inl (Or.inr hd)⟩
  · rintro ⟨hg, (hd | hd) | hd⟩
    · exact ⟨hg.symm, Or.inl (Or.inl hd.symm)⟩
    · exact ⟨hg.symm, Or.inr hd⟩
    · exact ⟨hg.symm, Or.inl (Or.inr hd)⟩

/-- C4: the same-generator contradiction predicate is symmetric, reflexively
false, and false on any two headers carrying the same block id. -/
theorem c4_contradiction_symmetry (A B : BlockHeader) :
    areHeadersContradicting A B = areHeadersContradicting B A ∧
      areHeadersContradicting A A = false ∧
      (A.id = B.id → areHeadersContradicting A B = false) := by
  refine ⟨?_, ?_, ?_⟩
  · by_cases hid : A.id = B.id
    · simp [areHeadersContradicting, hid]
    · have hid2 : B.id ≠ A.id := fun h => hid h.symm
      simp only [areHeadersContradicting, beq_iff_eq, if_neg hid, if_neg hid2]
      exact areDistinctHeadersContradicting_comm A B
  · simp [areHeadersContradicting]
  · intro hid
    simp [areHeadersContradicting, hid]

/-- C4 witness: the theorem applied at two concrete headers sharing an id. -/
theorem c4_contradiction_symmetry_witness :
    areHeadersContradicting hdrW1 hdrW2 = false ∧
      areHeadersContradicting hdrW1 hdrW2 = areHeadersContradicting hdrW2 hdrW1 :=
  ⟨(c4_contradiction_symmetry hdrW1 hdrW2).2.2 (by decide),
    (c4_contradiction_symmetry hdrW1 hdrW2).1⟩

lemma bufCompare_cons_of_lt {x y : Nat} (xs ys : Bytes) (h : x < y) :
    bufCompare (x :: xs) (y :: ys) = .lt := by
  simp [bufCompare, h]

lemma bufCompare_cons_of_gt {x y : Nat} (xs ys : Bytes) (h : y < x) :
    bufCompare (x :: xs) (y :: ys) = .gt := by
  have h2 : ¬ x < y := by omega
  simp [bufCompare, h, h2]

lemma bufCompare_cons_of_eq (x : Nat) (xs ys : Bytes) :
    bufCompare (x :: xs) (x :: ys) = bufCompare xs ys := by
  simp [bufCompare]

lemma bufCompare_eq_iff (a : Bytes) : ∀ b : Bytes, bufCompare a b = .eq ↔ a = b := by
  induction a with
  | nil => intro b; cases b <;> simp [bufCompare]
  | cons x xs ih =>
    intro b
    cases b with
    | nil => simp [bufCompare]
    | cons y ys =>
      rcases Nat.lt_trichotomy x y with h | h | h
      · rw [bufCompare_cons_of_lt xs ys h]
        constructor
        · intro hc; exact absurd hc (by decide)
        · intro hc
          injection hc with h1 _
          omega
      · subst h
        rw [bufCompare_cons_of_eq, List.cons.injEq]
        simp [ih ys]
      · rw [bufCompare_cons_of_gt xs ys h]
        constructor
        · intro hc; exact absurd hc (by decide)
        · intro hc
          injection hc with h1 _
          omega

lemma bufCompare_swap (a : Bytes) : ∀ b : Bytes, bufCompare b a = (bufCompare a b).swap := by
  induction a with
  | nil => intro b; cases b <;> simp [bufCompare, Ordering.swap]
  | cons x xs ih =>
    intro b
    cases b with
    | nil => simp [bufCompare, Ordering.swap]
    | cons y ys =>
      rcases Nat.lt_trichotomy x y with h | h | h
      · rw [bufCompare_cons_of_lt xs ys h, bufCompare_cons_of_gt ys xs h]
        rfl
      · subst h
        rw [bufCompare_cons_of_eq, bufCompare_cons_of_eq]
        exact ih ys
      · rw [bufCompare_cons_of_gt xs ys h, bufCompare_cons_of_lt ys xs h]
        rfl

lemma bufLeB_total (a b : Bytes) : (bufLeB a b || bufLeB b a) = true := by
  simp only [bufLeB, bufCompare_swap a b]
  rcases h : bufCompare a b <;> decide

lemma bufLeB_antisymm (a b : Bytes) (h1 : bufLeB a b = true) (h2 : bufLeB b a = true) :
    a = b := by
  simp only [bufLeB, bufCompare_swap a b] at h1 h2
  rcases h : bufCompare a b with _ | _ | _
  · rw [h] at h2
    exact absurd h2 (by decide)
  · exact (bufCompare_eq_iff a b).mp h
  · rw [h] at h1
    exact absurd h1 (by decide)

lemma bufLeB_trans (a : Bytes) : ∀ b c : Bytes,
    bufLeB a b = true → bufLeB b c = true → bufLeB a c = true := by
  induction a with
  | nil =>
    intro b c _ _
    cases c <;> simp [bufLeB, bufCompare] <;> decide
  | cons x xs ih =>
    intro b c h1 h2
    cases b with
    | nil =>
      simp only [bufLeB, bufCompare] at h1
      exact absurd h1 (by decide)
    | cons y ys =>
      cases c with
      | nil =>
        simp only [bufLeB, bufCompare] at h2
        exact absurd h2 (by decide)
      | cons z zs =>
        rcases Nat.lt_trichotomy x y with hxy | hxy | hxy
        · rcases Nat.lt_trichotomy y z with hyz | hyz | hyz
          · have hxz : x < z := by omega
            rw [bufLeB, bufCompare_cons_of_lt xs zs hxz]
            decide
          · subst hyz
            rw [bufLeB, bufCompare_cons_of_lt xs zs hxy]
            decide
          · rw [bufLeB, bufCompare_cons_of_gt ys zs hyz] at h2
            exact absurd h2 (by decide)
        · subst hxy
          rcases Nat.lt_trichotomy x z with hyz | hyz | hyz
          · rw [bufLeB, bufCompare_cons_of_lt xs zs hyz]
            decide
          · subst hyz
            rw [bufLeB, bufCompare_cons_of_eq] at h1 h2 ⊢
            exact ih ys zs h1 h2
          · rw [bufLeB, bufCompare_cons_of_gt ys zs hyz] at h2
            exact absurd h2 (by decide)
        · rw [bufLeB, bufCompare_cons_of_gt xs ys hxy] at h1
          exact absurd h1 (by decide)

lemma sortedByKey_unique {α : Type} (key : α → Bytes) :
    ∀ l1 l2 : List α, l1.Perm l2 →
      l1.Pairwise (fun a b => bufLeB (key a) (key b) = true) →
      l2.Pairwise (fun a b => bufLeB (key a) (key b) = true) →
      (l1.map key).Nodup → l1 = l2 := by
  intro l1
  induction l1 with
  | nil =>
    intro l2 hp _ _ _
    exact hp.nil_eq
  | cons a t1 ih =>
    intro l2 hp hs1 hs2 hnd
    cases l2 with
    | nil =>
      have := hp.symm.nil_eq
      exact absurd this (by simp)
    | cons b t2 =>
      have hab : a = b := by
        have ha2 : a ∈ b :: t2 := hp.subset (List.mem_cons_self a t1)
        rcases List.mem_cons.mp ha2 with h | h
        · exact h
        · have hb1 : b ∈ a :: t1 := hp.symm.subset (List.mem_cons_self b t2)
          rcases List.mem_cons.mp hb1 with h2 | h2
          · exact h2.symm
          · have hba : bufLeB (key b) (key a) = true := (List.pairwise_cons.mp hs2).1 a h
            have hab2 : bufLeB (key a) (key b) = true := (List.pairwise_cons.mp hs1).1 b h2
            have hk : key a = key b := bufLeB_antisymm _ _ hab2 hba
            have hmem : key b ∈ t1.map key := List.mem_map_of_mem key h2
            have hna : key a ∉ t1.map key := by
              have hcons : (key a :: t1.map key).Nodup := by simpa using hnd
              exact (List.nodup_cons.mp hcons).1
            rw [hk] at hna
            exact absurd hmem hna
      subst hab
      have ht : t1.Perm t2 := hp.cons_inv
      have htl : t1 = t2 := by
        refine ih t2 ht (List.pairwise_cons.mp hs1).2 (List.pairwise_cons.mp hs2).2 ?_
        have hcons : (key a :: t1.map key).Nodup := by simpa using hnd
        exact (List.nodup_cons.mp hcons).2
      rw [htl]

lemma insertSorted_perm {α : Type} (le : α → α → Bool) (x : α) :
    ∀ l : List α, (insertSorted le x l).Perm (x :: l) := by
  intro l
  induction l with
  | nil => exact List.Perm.refl _
  | cons y ys ih =>
    rw [insertSorted]
    split
    · exact List.Perm.refl _
    · exact (ih.cons y).trans (List.Perm.swap x y ys)

lemma insertionSortB_perm {α : Type} (le : α → α → Bool) :
    ∀ l : List α, (insertionSortB le l).Perm l := by
  intro l
  induction l with
  | nil => exact List.Perm.refl _
  | cons x xs ih => exact (insertSorted_perm le x _).trans (ih.cons x)

lemma insertSorted_pairwise {α : Type} (le : α → α → Bool)
    (htrans : ∀ a b c, le a b = true → le b c = true → le a c = true)
    (htotal : ∀ a b, le a b = true ∨ le b a = true) (x : α) :
    ∀ l : List α, l.Pairwise (fun a b => le a b = true) →
      (insertSorted le x l).Pairwise (fun a b => le a b = true) := by
  intro l
  induction l with
  | nil =>
    intro _
    exact List.pairwise_singleton _ x
  | cons y ys ih =>
    intro hp
    rw [insertSorted]
    split
    · next hxy =>
      refine List.Pairwise.cons ?_ hp
      intro z hz
      rcases List.mem_cons.mp hz with rfl | hz2
      · exact hxy
      · exact htrans x y z hxy ((List.pairwise_cons.mp hp).1 z hz2)
    · next hxy =>
      have hyx : le y x = true := by
        rcases htotal x y with h | h
        · exact absurd h hxy
        · exact h
      refine List.Pairwise.cons ?_ (ih (List.pairwise_cons.mp hp).2)
      intro z hz
      have hz2 : z ∈ x :: ys := (insertSorted_perm le x ys).subset hz
      rcases List.mem_cons.mp hz2 with rfl | hz3
      · exact hyx
      · exact (List.pairwise_cons.mp hp).1 z hz3

lemma insertionSortB_pairwise {α : Type} (le : α → α → Bool)
    (htrans : ∀ a b c, le a b = true → le b c = true → le a c = true)
    (htotal : ∀ a b, le a b = true ∨ le b a = true) :
    ∀ l : List α, (insertionSortB le l).Pairwise (fun a b => le a b = true) := by
  intro l
  induction l with
  | nil => exact List.Pairwise.nil
  | cons x xs ih => exact insertSorted_pairwise le htrans htotal x _ ih

lemma bufLeB_total_or (a b : Bytes) : bufLeB a b = true ∨ bufLeB b a = true := by
  have := bufLeB_total a b
  rcases Bool.or_eq_true_iff.mp this with h | h
  · exact Or.inl h
  · exact Or.inr h

lemma sortByKey_sorted {α : Type} (key : α → Bytes) (l : List α) :
    (insertionSortB (fun a b => bufLeB (key a) (key b)) l).Pairwise
      (fun a b => bufLeB (key a) (key b) = true) :=
  insertionSortB_pairwise (fun a b => bufLeB (key a) (key b))
    (fun _ _ _ hab hbc => bufLeB_trans _ _ _ hab hbc)
    (fun a b => bufLeB_total_or (key a) (key b)) l

lemma sortByKey_eq_of_perm {α : Type} (key : α → Bytes) (l l2 : List α)
    (hp : l.Perm l2) (hnd : (l.map key).Nodup) :
    insertionSortB (fun a b => bufLeB (key a) (key b)) l =
      insertionSortB (fun a b => bufLeB (key a) (key b)) l2 := by
  refine sortedByKey_unique key _ _ ?_ (sortByKey_sorted key l)
    (sortByKey_sorted key l2) ?_
  · exact (insertionSortB_perm _ l).trans (hp.trans (insertionSortB_perm _ l2).symm)
  · exact ((insertionSortB_perm _ l).map key).nodup_iff.mpr hnd

lemma aggregateWeight_ok_of_pos (l : List Validator) (hw : ∀ v ∈ l, 0 < v.bftWeight) :
    aggregateWeight l = .ok ((l.map Validator.bftWeight).sum) := by
  induction l with
  | nil => simp [aggregateWeight]
  | cons v vs ih =>
    have hv : ¬ v.bftWeight ≤ 0 := by
      have := hw v (List.mem_cons_self v vs)
      omega
    rw [aggregateWeight, if_neg hv, ih (fun u hu => hw u (List.mem_cons_of_mem v hu))]
    simp [Except.map]

lemma aggregateWeight_error_of_exists (l : List Validator)
    (hex : ∃ v ∈ l, v.bftWeight ≤ 0) :
    aggregateWeight l = .error .invalidBFTWeight := by
  induction l with
  | nil => simp at hex
  | cons v vs ih =>
    by_cases hv : v.bftWeight ≤ 0
    · rw [aggregateWeight, if_pos hv]
    · rw [aggregateWeight, if_neg hv]
      rcases hex with ⟨u, hu, hun⟩
      rcases List.mem_cons.mp hu with h | h
      · subst h; exact absurd hun hv
      · rw [ih ⟨u, h, hun⟩]
        simp [Except.map]

lemma aggregateWeight_perm (l l2 : List Validator) (hp : l.Perm l2) :
    aggregateWeight l = aggregateWeight l2 := by
  by_cases hex : ∃ v ∈ l, v.bftWeight ≤ 0
  · rcases hex with ⟨v, hv, hvn⟩
    rw [aggregateWeight_error_of_exists l ⟨v, hv, hvn⟩,
      aggregateWeight_error_of_exists l2 ⟨v, hp.subset hv, hvn⟩]
  · have hall : ∀ v ∈ l, 0 < v.bftWeight := by
      intro v hv
      by_contra hc
      exact hex ⟨v, hv, by omega⟩
    have hall2 : ∀ v ∈ l2, 0 < v.bftWeight := fun v hv => hall v (hp.symm.subset hv)
    rw [aggregateWeight_ok_of_pos l hall, aggregateWeight_ok_of_pos l2 hall2,
      ((hp.map Validator.bftWeight).sum_eq : _)]

/-- C6: setBFTParameters is atomic on validation failure: every thrown
validation error (validator count, non-positive weight, threshold bounds)
carries the unchanged input state, because all validation precedes the first
persistent write in the translated source. -/
theorem c6_setBFTParameters_atomic (batchSize : Nat) (accounts : Bytes → Bytes)
    (st : BFTState) (pt ct : Int) (validators : List Validator) (e : SetBFTError)
    (st1 : BFTState)
    (h : setBFTParameters batchSize accounts st pt ct validators = .thrown e st1) :
    st1 = st := by
  unfold setBFTParameters at h
  split at h
  · injection h with h1 h2
    exact h2.symm
  · split at h
    · injection h with h1 h2
      exact h2.symm
    · split at h
      · injection h with h1 h2
        exact h2.symm
      · split at h
        · injection h with h1 h2
          exact h2.symm
        · simp at h

/-- C6 witness: the theorem applied to a concrete thrown run (a zero-weight
validator), whose carried state is the unchanged input state. -/
theorem c6_setBFTParameters_atomic_witness :
    setBFTParameters 10 accW stW 2 2 [{ address := [5], bftWeight := 0 }] =
        .thrown .invalidBFTWeight stW ∧ stW = stW :=
  ⟨rfl, c6_setBFTParameters_atomic 10 accW stW 2 2
    [{ address := [5], bftWeight := 0 }] .invalidBFTWeight stW rfl⟩

/-- C3: threshold validation of setBFTParameters. With a valid batch size and
positive weights (aggregate weight `W`, whose truncated division by three is
its floor), a precommit threshold at or below `⌊W/3⌋` or above `W` throws the
precommit validation error; with the precommit threshold in the window, a
certificate threshold outside it throws the certificate validation error; with
both inside `[⌊W/3⌋ + 1, W]` the call is not rejected and succeeds. -/
theorem c3_threshold_bounds (batchSize : Nat) (accounts : Bytes → Bytes) (st : BFTState)
    (pt ct W : Int) (validators : List Validator)
    (hlen : validators.length ≤ batchSize)
    (hw : ∀ v ∈ validators, 0 < v.bftWeight)
    (hW : W = (validators.map Validator.bftWeight).sum) :
    ((pt ≤ Int.tdiv W 3 ∨ W < pt) →
        setBFTParameters batchSize accounts st pt ct validators =
          .thrown .invalidPrecommitThreshold st) ∧
      ((Int.tdiv W 3 < pt ∧ pt ≤ W) → (ct ≤ Int.tdiv W 3 ∨ W < ct) →
        setBFTParameters batchSize accounts st pt ct validators =
          .thrown .invalidCertificateThreshold st) ∧
      ((Int.tdiv W 3 < pt ∧ pt ≤ W) → (Int.tdiv W 3 < ct ∧ ct ≤ W) →
        ∃ st1, setBFTParameters batchSize accounts st pt ct validators = .ok st1) := by
  have hagg : aggregateWeight validators = .ok W := by
    rw [aggregateWeight_ok_of_pos validators hw, hW]
  have hnlen : ¬ validators.length > batchSize := by omega
  refine ⟨?_, ?_, ?_⟩
  · intro hbad
    unfold setBFTParameters
    rw [if_neg hnlen]
    split
    · next e heq =>
      rw [hagg] at heq
      exact Except.noConfusion heq
    · next agg heq =>
      rw [hagg] at heq
      injection heq with heq2
      subst heq2
      rw [if_pos (by omega)]
  · intro hgood hbad
    unfold setBFTParameters
    rw [if_neg hnlen]
    split
    · next e heq =>
      rw [hagg] at heq
      exact Except.noConfusion heq
    · next agg heq =>
      rw [hagg] at heq
      injection heq with heq2
      subst heq2
      rw [if_neg (by omega), if_pos (by omega)]
  · intro hgood1 hgood2
    unfold setBFTParameters
    rw [if_neg hnlen]
    split
    · next e heq =>
      rw [hagg] at heq
      exact Except.noConfusion heq
    · next agg heq =>
      rw [hagg] at heq
      injection heq with heq2
      subst heq2
      rw [if_neg (by omega), if_neg (by omega)]
      exact ⟨_, rfl⟩

/-- C3 witness: with `W = 3` (so `⌊W/3⌋ = 1`), a precommit threshold of `1` is
thrown out while thresholds of `2` succeed. -/
theorem c3_threshold_bounds_witness :
    setBFTParameters 10 accW stW 1 2 validatorsW3 =
        .thrown .invalidPrecommitThreshold stW ∧
      ∃ st1, setBFTParameters 10 accW stW 2 2 validatorsW3 = .ok st1 :=
  ⟨(c3_threshold_bounds 10 accW stW 1 2 3 validatorsW3 (by decide) (by decide)
      (by decide)).1 (by decide),
    (c3_threshold_bounds 10 accW stW 2 2 3 validatorsW3 (by decide) (by decide)
      (by decide)).2.2 (by decide) (by decide)⟩

lemma computeValidatorsHash_perm (accounts : Bytes → Bytes) (l l2 : List Validator)
    (ct : Int) (hp : l.Perm l2)
    (hnd : (l.map (fun v => accounts v.address)).Nodup) :
    computeValidatorsHash accounts l ct = computeValidatorsHash accounts l2 ct := by
  unfold computeValidatorsHash sortValidatorsByBLSKey
  have hsort :
      insertionSortB (fun a b => bufLeB a.blsKey b.blsKey)
          (l.map (fun v => ({ blsKey := accounts v.address, bftWeight := v.bftWeight } :
            ValidatorsHashInfo))) =
        insertionSortB (fun a b => bufLeB a.blsKey b.blsKey)
          (l2.map (fun v => ({ blsKey := accounts v.address, bftWeight := v.bftWeight } :
            ValidatorsHashInfo))) :=
    sortByKey_eq_of_perm (fun x : ValidatorsHashInfo => x.blsKey) _ _
      (hp.map _) (by rw [List.map_map]; exact hnd)
  simp only []
  rw [hsort]

lemma storedValidatorsHash_ok_congr (s : List (Int × BFTParameters))
    (vts1 vts2 : BFTVotes) (k0 : Int) (p1 p2 : BFTParameters)
    (hv : p1.validatorsHash = p2.validatorsHash) (k : Int) :
    storedValidatorsHash (.ok { votes := vts1, paramsStore := storeSet s k0 p1 }) k =
      storedValidatorsHash (.ok { votes := vts2, paramsStore := storeSet s k0 p2 }) k := by
  simp only [storedValidatorsHash, storeGet, storeSet, List.find?]
  by_cases hk : (k0 == k) = true
  · simp [hk, hv]
  · simp only [Bool.not_eq_true] at hk
    simp [hk]

/-- C7 (amended): permuting the validator list passed to setBFTParameters
leaves the stored validators hash unchanged, provided the validator accounts
resolve the validators to pairwise distinct BLS keys (the sort is by BLS key
alone, so duplicate keys would keep their caller order). -/
theorem c7_validators_hash_permutation (batchSize : Nat) (accounts : Bytes → Bytes)
    (st : BFTState) (pt ct : Int) (l l2 : List Validator)
    (hperm : l.Perm l2)
    (hkeys : (l.map (fun v => accounts v.address)).Nodup) (k : Int) :
    storedValidatorsHash (setBFTParameters batchSize accounts st pt ct l) k =
      storedValidatorsHash (setBFTParameters batchSize accounts st pt ct l2) k := by
  have hlen := hperm.length_eq
  have hagg := aggregateWeight_perm l l2 hperm
  unfold setBFTParameters
  by_cases h1 : l.length > batchSize
  · rw [if_pos h1, if_pos (by omega)]
  · rw [if_neg h1, if_neg (by omega)]
    rcases ha : aggregateWeight l with e | W
    · have ha2 : aggregateWeight l2 = .error e := by rw [← hagg, ha]
      rw [ha2]
    · have ha2 : aggregateWeight l2 = .ok W := by rw [← hagg, ha]
      rw [ha2]
      simp only []
      by_cases hpt : Int.tdiv W 3 + 1 > pt ∨ pt > W
      · rw [if_pos hpt, if_pos hpt]
      · rw [if_neg hpt, if_neg hpt]
        by_cases hct : Int.tdiv W 3 + 1 > ct ∨ ct > W
        · rw [if_pos hct, if_pos hct]
        · rw [if_neg hct, if_neg hct]
          exact storedValidatorsHash_ok_congr st.paramsStore _ _ _ _ _
            (computeValidatorsHash_perm accounts l l2 ct hperm hkeys) k

/-- C7 counterexample: with two validators whose accounts resolve to the same
BLS key, swapping the caller's order changes the stored validators hash (the
stable sort by key alone keeps equal keys in caller order), refuting the claim
as stated. -/
theorem c7_counterexample :
    ([({ address := [10], bftWeight := 1 } : Validator),
        { address := [11], bftWeight := 2 }].Perm
      [({ address := [11], bftWeight := 2 } : Validator),
        { address := [10], bftWeight := 1 }]) ∧
      storedValidatorsHash
          (setBFTParameters 10 accC stW 2 2
            [{ address := [10], bftWeight := 1 }, { address := [11], bftWeight := 2 }]) 0 ≠
        storedValidatorsHash
          (setBFTParameters 10 accC stW 2 2
            [{ address := [11], bftWeight := 2 }, { address := [10], bftWeight := 1 }]) 0 :=
  ⟨List.Perm.swap _ _ _, by decide⟩

/-- C7 witness: the amended theorem applied to a concrete swap of two
validators with distinct resolved BLS keys. -/
theorem c7_validators_hash_permutation_witness :
    storedValidatorsHash
        (setBFTParameters 10 accD stW 2 2
          [{ address := [10], bftWeight := 1 }, { address := [11], bftWeight := 2 }]) 0 =
      storedValidatorsHash
        (setBFTParameters 10 accD stW 2 2
          [{ address := [11], bftWeight := 2 }, { address := [10], bftWeight := 1 }]) 0 :=
  c7_validators_hash_permutation 10 accD stW 2 2 _ _ (List.Perm.swap _ _ _) (by decide) 0

/-- C2: gate order and short-circuiting of verifyAggregateCommit: the
empty-empty commit at exactly the certified height is accepted; otherwise an
empty bits or signature is rejected; a height at or below the certified height
is rejected; a height above the precommitted height is rejected; and only
after these gates (and the expiry gate, whose own rejection returns false)
does the result come from the certificate recomputation and aggregate
signature verification phase. -/
theorem c2_verifyAggregateCommit_gates (ctx : CommitPoolCtx) (ac : AggregateCommit) :
    (ac.aggregationBits = [] → ac.certificateSignature = [] →
        ac.height = ctx.maxHeightCertified → verifyAggregateCommit ctx ac = .ok true) ∧
      ((ac.aggregationBits = [] ∨ ac.certificateSignature = []) →
        ¬(ac.aggregationBits = [] ∧ ac.certificateSignature = [] ∧
            ac.height = ctx.maxHeightCertified) →
        verifyAggregateCommit ctx ac = .ok false) ∧
      (ac.aggregationBits ≠ [] → ac.certificateSignature ≠ [] →
        ac.height ≤ ctx.maxHeightCertified → verifyAggregateCommit ctx ac = .ok false) ∧
      (ac.aggregationBits ≠ [] → ac.certificateSignature ≠ [] →
        ac.height > ctx.maxHeightPrecommitted → verifyAggregateCommit ctx ac = .ok false) ∧
      (ac.aggregationBits ≠ [] → ac.certificateSignature ≠ [] →
        ctx.maxHeightCertified < ac.height → ac.height ≤ ctx.maxHeightPrecommitted →
        (∀ hN : Int, ctx.nextHeightBFTParameters = .ok hN → ac.height > hN - 1 →
            verifyAggregateCommit ctx ac = .ok false) ∧
          (∀ hN : Int, ctx.nextHeightBFTParameters = .ok hN → ¬ ac.height > hN - 1 →
            verifyAggregateCommit ctx ac = certificateVerificationPhase ctx ac) ∧
          (∀ e : BFTStoreError, ctx.nextHeightBFTParameters = .error e →
            verifyAggregateCommit ctx ac = certificateVerificationPhase ctx ac)) := by
  refine ⟨?_, ?_, ?_, ?_, ?_⟩
  · intro h1 h2 h3
    unfold verifyAggregateCommit
    rw [if_pos ⟨h1, h2, h3⟩]
  · intro hor hnot
    unfold verifyAggregateCommit
    rw [if_neg hnot, if_pos hor]
  · intro h1 h2 h3
    unfold verifyAggregateCommit
    rw [if_neg (fun hc => h1 hc.1), if_neg (fun hc => hc.elim h1 h2), if_pos h3]
  · intro h1 h2 h3
    unfold verifyAggregateCommit
    rw [if_neg (fun hc => h1 hc.1), if_neg (fun hc => hc.elim h1 h2)]
    by_cases h4 : ac.height ≤ ctx.maxHeightCertified
    · rw [if_pos h4]
    · rw [if_neg h4, if_pos h3]
  · intro h1 h2 h3 h4
    refine ⟨?_, ?_, ?_⟩
    · intro hN heq hgt
      unfold verifyAggregateCommit
      rw [if_neg (fun hc => h1 hc.1), if_neg (fun hc => hc.elim h1 h2),
        if_neg (by omega), if_neg (by omega), heq]
      simp only []
      rw [if_pos hgt]
    · intro hN heq hle
      unfold verifyAggregateCommit
      rw [if_neg (fun hc => h1 hc.1), if_neg (fun hc => hc.elim h1 h2),
        if_neg (by omega), if_neg (by omega), heq]
      simp only []
      rw [if_neg hle]
    · intro e heq
      unfold verifyAggregateCommit
      rw [if_neg (fun hc => h1 hc.1), if_neg (fun hc => hc.elim h1 h2),
        if_neg (by omega), if_neg (by omega), heq]

/-- C2 witness: the spec example at `maxHeightCertified = 10`: the empty-empty
commit at height ten is accepted, empty signature with non-empty bits is
rejected, and height five (below certified) is rejected. -/
theorem c2_verifyAggregateCommit_gates_witness :
    verifyAggregateCommit ctxC2
        { height := 10, aggregationBits := [], certificateSignature := [] } = .ok true ∧
      verifyAggregateCommit ctxC2
        { height := 10, aggregationBits := [1], certificateSignature := [] } = .ok false ∧
      verifyAggregateCommit ctxC2
        { height := 5, aggregationBits := [1], certificateSignature := [1] } = .ok false :=
  ⟨(c2_verifyAggregateCommit_gates ctxC2 _).1 rfl rfl rfl,
    (c2_verifyAggregateCommit_gates ctxC2 _).2.1 (Or.inr rfl) (by decide),
    (c2_verifyAggregateCommit_gates ctxC2 _).2.2.1 (by decide) (by decide) (by decide)⟩

/-- C8: the catch-all around the next-height parameter lookup swallows every
error, not only the not-found case: whenever the lookup result is any error,
verifyAggregateCommit behaves exactly as if no expiry constraint existed, and
no error propagates to the caller. -/
theorem c8_swallow_lookup_errors (ctx : CommitPoolCtx) (ac : AggregateCommit)
    (e : BFTStoreError) (h : ctx.nextHeightBFTParameters = .error e) :
    verifyAggregateCommit ctx ac = verifyAggregateCommitNoExpiry ctx ac := by
  unfold verifyAggregateCommit verifyAggregateCommitNoExpiry
  rw [h]

/-- C8 witness: the theorem applied to a concrete store failure that is not
the not-found error. -/
theorem c8_swallow_lookup_errors_witness :
    verifyAggregateCommit ctxC8
        { height := 15, aggregationBits := [1], certificateSignature := [2] } =
      verifyAggregateCommitNoExpiry ctxC8
        { height := 15, aggregationBits := [1], certificateSignature := [2] } :=
  c8_swallow_lookup_errors ctxC8 _ (.storeFailure "disk") rfl

/-- C10: getSortedWeightsAndValidatorKeys does not mutate its argument (the
in-place sort targets a copy, so the caller's list keeps its order and
contents), and the returned keys are ordered ascending by BLS-key bytes with
`weights[i]` belonging to `validatorKeys[i]` (their zip is a permutation of
the caller's key/weight pairs). -/
theorem c10_getSortedWeightsAndValidatorKeys_frame (param : List KeyWeightEntry) :
    (getSortedWeightsAndValidatorKeys param).1 = param ∧
      ((getSortedWeightsAndValidatorKeys param).2.2.zip
          (getSortedWeightsAndValidatorKeys param).2.1).Perm
        (param.map (fun e => (e.blsKey, e.weight))) ∧
      List.Pairwise (fun a b => bufLeB a b = true)
        (getSortedWeightsAndValidatorKeys param).2.2 := by
  have hcopy : param.map
      (fun o => ({ weight := o.weight, blsKey := o.blsKey } : KeyWeightEntry)) = param :=
    List.map_id param
  refine ⟨rfl, ?_, ?_⟩
  · simp only [getSortedWeightsAndValidatorKeys]
    rw [List.zip_map', hcopy]
    exact (insertionSortB_perm (fun a b => bufLeB a.blsKey b.blsKey) param).map
      (fun e : KeyWeightEntry => (e.blsKey, e.weight))
  · simp only [getSortedWeightsAndValidatorKeys]
    exact List.pairwise_map.mpr (sortByKey_sorted (fun e : KeyWeightEntry => e.blsKey) _)

/-- C9: impliesMaximalPrevotes returns a boolean on every state whose block
info list is non-empty (the embedded indexing never reaches its error branch
there), and fails instead of returning a boolean on an empty list. -/
theorem c9_impliesMaximalPrevotes_bounds (votes : BFTVotes) (header : BlockHeader) :
    (votes.blockBFTInfos ≠ [] → ∃ b, impliesMaximalPrevotes votes header = .ok b) ∧
      (votes.blockBFTInfos = [] →
        impliesMaximalPrevotes votes header =
          .error "TypeError: cannot read properties of undefined") := by
  constructor
  · intro hne
    rcases hinfos : votes.blockBFTInfos with _ | ⟨lastHeader, rest⟩
    · exact absurd hinfos hne
    · rw [impliesMaximalPrevotes, hinfos]
      show ∃ b,
        (if header.height ≠ lastHeader.height + 1 then (Except.ok false : Except String Bool)
        else if header.maxHeightGenerated ≥ header.height then .ok false
        else
          let offset := lastHeader.height - header.maxHeightGenerated
          if offset ≥ ((lastHeader :: rest).length : Int) then .ok true
          else
            match listGetInt (lastHeader :: rest) offset with
            | none => .error "TypeError: cannot read properties of undefined"
            | some info => .ok (info.generatorAddress == header.generatorAddress)) =
          .ok b
      by_cases h1 : header.height ≠ lastHeader.height + 1
      · rw [if_pos h1]
        exact ⟨false, rfl⟩
      · rw [if_neg h1]
        by_cases h2 : header.maxHeightGenerated ≥ header.height
        · rw [if_pos h2]
          exact ⟨false, rfl⟩
        · rw [if_neg h2]
          simp only []
          by_cases h3 : lastHeader.height - header.maxHeightGenerated ≥
              ((lastHeader :: rest).length : Int)
          · rw [if_pos h3]
            exact ⟨true, rfl⟩
          · rw [if_neg h3]
            have hh : header.height = lastHeader.height + 1 := by omega
            have hget : ∃ info, listGetInt (lastHeader :: rest)
                (lastHeader.height - header.maxHeightGenerated) = some info := by
              rw [listGetInt]
              rw [dif_pos ?_]
              · exact ⟨_, rfl⟩
              · constructor
                · omega
                · omega
            rcases hget with ⟨info, hinfo⟩
            rw [hinfo]
            exact ⟨_, rfl⟩
  · intro hemp
    rw [impliesMaximalPrevotes, hemp]

/-- C9 witness: the theorem applied to a concrete non-empty ledger and to the
concrete empty ledger. -/
theorem c9_impliesMaximalPrevotes_bounds_witness :
    (∃ b, impliesMaximalPrevotes votesC9 headerC9 = .ok b) ∧
      impliesMaximalPrevotes stW.votes headerC9 =
        .error "TypeError: cannot read properties of undefined" :=
  ⟨(c9_impliesMaximalPrevotes_bounds votesC9 headerC9).1 (by decide),
    (c9_impliesMaximalPrevotes_bounds stW.votes headerC9).2 rfl⟩
